import Mathlib

/-!
Shallow embedding of the FraudLens risk decision engine:
ensemble scorer (src/agents/scoring_agent.py), orchestrator fallback
semantics (src/fraudlens.py), evaluation metrics (src/eval/metrics.py)
and calibration (src/eval/calibration.py).

Numbers are modelled as exact rationals.  Python's `round(x, d)`
(round half to even at d decimal places) is modelled by `roundTo`.
-/

/-- Round half to even: the integer nearest to `q`, ties to the even one.
Models Python's banker's rounding on the scaled value. -/
def rhe (q : ℚ) : ℤ :=
  if q - ⌊q⌋ < 1/2 then ⌊q⌋
  else if 1/2 < q - ⌊q⌋ then ⌊q⌋ + 1
  else if ⌊q⌋ % 2 = 0 then ⌊q⌋ else ⌊q⌋ + 1

/-- Python's `round(q, d)` for rationals. -/
def roundTo (d : ℕ) (q : ℚ) : ℚ := (rhe (q * 10 ^ d) : ℚ) / 10 ^ d

/-- `RiskFactor` dataclass from src/agents/scoring_agent.py. -/
structure RiskFactor where
  name : String
  score : ℚ
  weight : ℚ
  description : String
  evidence : List String
deriving DecidableEq

/-- Sum of the weights of a factor list (`sum(f.weight for f in risk_factors)`). -/
def totalWeight (fs : List RiskFactor) : ℚ := (fs.map (fun f => f.weight)).sum

/-- Weight renormalization step, scoring_agent.py lines 199-206:
rescale weights by `1/total` only when `total > 0` and `|total - 1| > 0.01`. -/
def renormalize (fs : List RiskFactor) : List RiskFactor :=
  if 0 < totalWeight fs ∧ 1/100 < |totalWeight fs - 1| then
    fs.map (fun f => { f with weight := f.weight * (1 / totalWeight fs) })
  else fs

/-- `sum(f.score * f.weight for f in risk_factors)`. -/
def weightedSum (fs : List RiskFactor) : ℚ := (fs.map (fun f => f.score * f.weight)).sum

/-- Rigid-mode nudge, scoring_agent.py lines 208-210: in the ID flow with
RIGID_SCORING set, scores in (0, 50) get `min(100, score + 5)`. -/
def nudgeScore (rigid useId : Bool) (s : ℚ) : ℚ :=
  if rigid = true ∧ useId = true ∧ 0 < s ∧ s < 50 then min 100 (s + 5) else s

/-- `ScoringAgent._get_risk_level`: threshold bands depending on the
RIGID_SCORING environment flag and the ID flow. -/
def getRiskLevel (rigid isIdFlow : Bool) (score : ℚ) : String :=
  if rigid then
    if isIdFlow then
      if 62 ≤ score then "critical"
      else if 35 ≤ score then "high"
      else if 12 ≤ score then "medium"
      else "low"
    else
      if 68 ≤ score then "critical"
      else if 42 ≤ score then "high"
      else if 18 ≤ score then "medium"
      else "low"
  else
    if 75 ≤ score then "critical"
    else if 50 ≤ score then "high"
    else if 25 ≤ score then "medium"
    else "low"

/-- The scores strictly greater than 0 (`[s for s in all_scores if s > 0]`). -/
def activeScores (fs : List RiskFactor) : List ℚ :=
  (fs.map (fun f => f.score)).filter (fun s => 0 < s)

/-- Population variance of a list of rationals (mean of squared deviations). -/
def varianceOf (l : List ℚ) : ℚ :=
  let avg := l.sum / (l.length : ℚ)
  (l.map (fun s => (s - avg) ^ 2)).sum / (l.length : ℚ)

/-- `ScoringAgent._calculate_confidence`, scoring_agent.py lines 290-301. -/
def calculate_confidence (fs : List RiskFactor) : ℚ :=
  let allScores := fs.map (fun f => f.score)
  if allScores = [] then 1/2
  else
    let active := allScores.filter (fun s => 0 < s)
    if active = [] then 17/20
    else max (1/2) (min (19/20) (1 - varianceOf active / 2500))

/-- `ScoringAgent._get_recommendation`. -/
def getRecommendation (rigid : Bool) (riskLevel : String) : String :=
  if rigid then
    if riskLevel = "critical" then "DENY - Refer to SIU immediately"
    else if riskLevel = "high" then "INVESTIGATE - Assign to fraud analyst"
    else if riskLevel = "medium" then "REVIEW - Additional documentation required"
    else if riskLevel = "low" then "REVIEW - Verify before approval (rigid mode)"
    else "REVIEW"
  else
    if riskLevel = "critical" then "DENY - Refer to SIU immediately"
    else if riskLevel = "high" then "INVESTIGATE - Assign to fraud analyst"
    else if riskLevel = "medium" then "REVIEW - Additional documentation required"
    else if riskLevel = "low" then "APPROVE - Proceed with standard processing"
    else "REVIEW"

/-- `ScoringAgent.WEIGHTS`: base weight table for the general flow. -/
def WEIGHTS : List (String × ℚ) :=
  [("inconsistency", 3/10), ("pattern_match", 1/4), ("network_risk", 1/5),
   ("claim_characteristics", 3/20), ("deepfake", 1/10)]

/-- `ScoringAgent.WEIGHTS_ID`: base weight table for the photo-ID flow. -/
def WEIGHTS_ID : List (String × ℚ) :=
  [("inconsistency", 1/5), ("pattern_match", 1/5), ("deepfake", 1/5),
   ("id_consistency", 3/10), ("claim_characteristics", 1/10)]

/-- Caller-override merge, scoring_agent.py lines 105-108:
`{k: weights.get(k, base_weights[k]) for k in base_weights}`. -/
def mergeWeights (overrides : Option (List (String × ℚ))) (base : List (String × ℚ)) :
    List (String × ℚ) :=
  match overrides with
  | none => base
  | some ov => base.map (fun kv => (kv.1, ((ov.lookup kv.1).getD kv.2)))

/-- Dictionary access `weights[k]` (the keys used are always present). -/
def getWeight (w : List (String × ℚ)) (k : String) : ℚ := (w.lookup k).getD 0

/-- Fields of a deepfake-agent result dict relevant to scoring.
`ai_generated_score` is `none` when the key is absent. -/
structure DeepfakeInput where
  status : String
  manipulation_score : ℚ
  ai_generated_score : Option ℚ
deriving DecidableEq

/-- Factor assembly of `ScoringAgent.calculate_score`, lines 113-197.
Inputs are the numeric scores taken from the per-agent result dicts
(`inconsistency_score`, `pattern_risk_score`, `network_risk_score`,
`risk_score`, and the local claim-characteristics score); `none` models an
absent (`None` / falsy) result.  Textual descriptions and evidence do not
influence scoring and are embedded as empty strings/lists. -/
def buildFactors (incScore patScore : ℚ) (netScore : Option ℚ)
    (deepfake : Option DeepfakeInput) (idScore : Option ℚ) (claimScore : ℚ)
    (w : List (String × ℚ)) (useId : Bool) : List RiskFactor :=
  let inc := [RiskFactor.mk "Inconsistencies" incScore (getWeight w "inconsistency") "" []]
  let pat := [RiskFactor.mk "Fraud Pattern Match" patScore (getWeight w "pattern_match") "" []]
  let net :=
    match netScore with
    | some s => if useId then [] else
        [RiskFactor.mk "Network/Ring Risk" s (getWeight w "network_risk") "" []]
    | none => []
  let df :=
    match deepfake with
    | some d =>
        if useId then
          let s := if d.status = "success" then
              (match d.ai_generated_score with
               | some a => max d.manipulation_score a
               | none => d.manipulation_score)
            else 0
          [RiskFactor.mk "Image Authenticity" s (getWeight w "deepfake") "" []]
        else
          let s := if d.status = "success" then d.manipulation_score else 0
          [RiskFactor.mk "Image Authenticity" s (getWeight w "deepfake") "" []]
    | none => []
  let idf :=
    match idScore with
    | some s => [RiskFactor.mk "ID Plausibility" s (getWeight w "id_consistency") "" []]
    | none => []
  let clm := [RiskFactor.mk "Claim Characteristics" claimScore (getWeight w "claim_characteristics") "" []]
  inc ++ pat ++ net ++ df ++ idf ++ clm

/-- The fields of the dict returned by `ScoringAgent.calculate_score`
on the success path (status "success"). -/
structure ScoreOutput where
  overall_score : ℚ
  risk_level : String
  confidence : ℚ
  risk_factors : List RiskFactor
  recommendation : String
deriving DecidableEq

/-- `ScoringAgent.calculate_score` (success path), scoring_agent.py lines
84-223.  `rigid` models the `RIGID_SCORING` environment flag read by
`_is_rigid()`; `useId` is `id_consistency_results is not None`, i.e.
`idScore.isSome`.  Output `overall_score` is rounded to 1 decimal and
`confidence` to 2 decimals as in the returned dict. -/
def calculate_score (rigid : Bool) (incScore patScore : ℚ) (netScore : Option ℚ)
    (deepfake : Option DeepfakeInput) (idScore : Option ℚ) (claimScore : ℚ)
    (overrides : Option (List (String × ℚ))) : ScoreOutput :=
  let useId := idScore.isSome
  let base := if useId then WEIGHTS_ID else WEIGHTS
  let w := mergeWeights overrides base
  let fs := renormalize (buildFactors incScore patScore netScore deepfake idScore claimScore w useId)
  let overall := nudgeScore rigid useId (weightedSum fs)
  let level := getRiskLevel rigid useId overall
  { overall_score := roundTo 1 overall
    risk_level := level
    confidence := roundTo 2 (calculate_confidence fs)
    risk_factors := fs
    recommendation := getRecommendation rigid level }

/-!
Evaluation metrics, src/eval/metrics.py.  Labels and binary predictions
are integers (the code uses 0/1 ints), scores are rationals.
-/

/-- `sum(1 for t, p in zip(y_true, y_pred) if t == 1 and p == 1)`. -/
def tpCount : List ℤ → List ℤ → ℕ
  | t :: ts, p :: ps => (if t = 1 ∧ p = 1 then 1 else 0) + tpCount ts ps
  | _, _ => 0

/-- `sum(1 for t, p in zip(y_true, y_pred) if t == 0 and p == 1)`. -/
def fpCount : List ℤ → List ℤ → ℕ
  | t :: ts, p :: ps => (if t = 0 ∧ p = 1 then 1 else 0) + fpCount ts ps
  | _, _ => 0

/-- `sum(1 for t, p in zip(y_true, y_pred) if t == 1 and p == 0)`. -/
def fnCount : List ℤ → List ℤ → ℕ
  | t :: ts, p :: ps => (if t = 1 ∧ p = 0 then 1 else 0) + fnCount ts ps
  | _, _ => 0

/-- `sum(1 for t, p in zip(y_true, y_pred) if t == 0 and p == 0)`. -/
def tnCount : List ℤ → List ℤ → ℕ
  | t :: ts, p :: ps => (if t = 0 ∧ p = 0 then 1 else 0) + tnCount ts ps
  | _, _ => 0

/-- Number of zipped pairs whose label is 1 (used to relate TP + FN). -/
def pairPos : List ℤ → List ℤ → ℕ
  | t :: ts, _ :: ps => (if t = 1 then 1 else 0) + pairPos ts ps
  | _, _ => 0

/-- `tp / (tp + fp) if (tp + fp) > 0 else 0.0`. -/
def precisionOf (tp fp : ℕ) : ℚ := if 0 < tp + fp then (tp : ℚ) / ((tp : ℚ) + fp) else 0

/-- `tp / (tp + fn) if (tp + fn) > 0 else 0.0`. -/
def recallOf (tp fn : ℕ) : ℚ := if 0 < tp + fn then (tp : ℚ) / ((tp : ℚ) + fn) else 0

/-- `2 * p * r / (p + r) if (p + r) > 0 else 0.0`. -/
def f1Of (p r : ℚ) : ℚ := if 0 < p + r then 2 * p * r / (p + r) else 0

/-- `fp / (fp + tn) if (fp + tn) > 0 else 0.0`. -/
def fprOf (fp tn : ℕ) : ℚ := if 0 < fp + tn then (fp : ℚ) / ((fp : ℚ) + tn) else 0

/-- The dict returned by `binary_metrics` (ratios rounded to 4 decimals). -/
structure BinaryMetrics where
  precision : ℚ
  «recall» : ℚ
  f1 : ℚ
  fpr : ℚ
  tp : ℕ
  fp : ℕ
  fn : ℕ
  tn : ℕ
  support_positive : ℤ
  support_negative : ℤ
deriving DecidableEq

/-- `binary_metrics`, metrics.py lines 20-46. -/
def binary_metrics (y_true y_pred : List ℤ) : BinaryMetrics :=
  let tp := tpCount y_true y_pred
  let fp := fpCount y_true y_pred
  let fn := fnCount y_true y_pred
  let tn := tnCount y_true y_pred
  let precision := precisionOf tp fp
  let rcl := recallOf tp fn
  { precision := roundTo 4 precision
    «recall» := roundTo 4 rcl
    f1 := roundTo 4 (f1Of precision rcl)
    fpr := roundTo 4 (fprOf fp tn)
    tp := tp, fp := fp, fn := fn, tn := tn
    support_positive := y_true.sum
    support_negative := (y_true.length : ℤ) - y_true.sum }

/-- `scores_to_binary`: 1 if score >= threshold else 0. -/
def scores_to_binary (scores : List ℚ) (threshold : ℚ) : List ℤ :=
  scores.map (fun s => if threshold ≤ s then 1 else 0)

/-- `metrics_at_threshold` (the threshold field itself is omitted). -/
def metrics_at_threshold (y_true : List ℤ) (y_score : List ℚ) (threshold : ℚ) :
    BinaryMetrics :=
  binary_metrics y_true (scores_to_binary y_score threshold)

/-- The dict returned by `value_at_threshold`, metrics.py lines 120-140. -/
structure ValueResult where
  threshold : ℚ
  value : ℚ
  tp : ℕ
  reviews : ℕ
  savings : ℚ
  cost : ℚ
deriving DecidableEq

/-- `value_at_threshold`: value = TP * savings_per_tp - (TP+FP) * cost_per_review. -/
def value_at_threshold (y_true : List ℤ) (y_score : List ℚ) (threshold : ℚ)
    (savings_per_tp cost_per_review : ℚ) : ValueResult :=
  let y_pred := scores_to_binary y_score threshold
  let tp := tpCount y_true y_pred
  let fp := fpCount y_true y_pred
  let reviews := tp + fp
  { threshold := threshold
    value := (tp : ℚ) * savings_per_tp - (reviews : ℚ) * cost_per_review
    tp := tp
    reviews := reviews
    savings := (tp : ℚ) * savings_per_tp
    cost := (reviews : ℚ) * cost_per_review }

/-- The constraint filter inside `optimize_threshold`'s loop: a threshold is
kept unless `max_fpr` is given and the (rounded) FPR exceeds it, or
`max_workload` is given and the review count exceeds it. -/
def isFeasible (y_true : List ℤ) (y_score : List ℚ) (max_fpr : Option ℚ)
    (max_workload : Option ℤ) (savings_per_tp cost_per_review t : ℚ) : Bool :=
  (match max_fpr with
   | none => true
   | some mf => decide ((metrics_at_threshold y_true y_score t).fpr ≤ mf)) &&
  (match max_workload with
   | none => true
   | some mw =>
     decide (((value_at_threshold y_true y_score t savings_per_tp cost_per_review).reviews : ℤ) ≤ mw))

/-- One iteration of `optimize_threshold`'s best-tracking: skip infeasible
thresholds; otherwise take the threshold when there is no best yet or its
value strictly exceeds the best value. -/
def optStep (y_true : List ℤ) (y_score : List ℚ) (max_fpr : Option ℚ)
    (max_workload : Option ℤ) (savings_per_tp cost_per_review : ℚ)
    (acc : Option (ℚ × ℚ)) (t : ℚ) : Option (ℚ × ℚ) :=
  if isFeasible y_true y_score max_fpr max_workload savings_per_tp cost_per_review t then
    match acc with
    | none => some (t, (value_at_threshold y_true y_score t savings_per_tp cost_per_review).value)
    | some (bt, bv) =>
      if bv < (value_at_threshold y_true y_score t savings_per_tp cost_per_review).value then
        some (t, (value_at_threshold y_true y_score t savings_per_tp cost_per_review).value)
      else some (bt, bv)
  else acc

/-- The `for t in thresholds` loop of `optimize_threshold`. -/
def optLoop (y_true : List ℤ) (y_score : List ℚ) (max_fpr : Option ℚ)
    (max_workload : Option ℤ) (savings_per_tp cost_per_review : ℚ) :
    List ℚ → Option (ℚ × ℚ) → Option (ℚ × ℚ)
  | [], acc => acc
  | t :: ts, acc =>
    optLoop y_true y_score max_fpr max_workload savings_per_tp cost_per_review ts
      (optStep y_true y_score max_fpr max_workload savings_per_tp cost_per_review acc t)

/-- `optimize_threshold`, metrics.py lines 143-181: the returned
`(best_threshold, best_value)` pair (`none` models Python's `None, None`). -/
def optimize_threshold (y_true : List ℤ) (y_score : List ℚ)
    (savings_per_tp cost_per_review : ℚ) (max_fpr : Option ℚ)
    (max_workload : Option ℤ) (thresholds : List ℚ) : Option (ℚ × ℚ) :=
  optLoop y_true y_score max_fpr max_workload savings_per_tp cost_per_review thresholds none

/-!
Calibration, src/eval/calibration.py.  The fitted sklearn models are
external to the repository: `apply_platt`'s `math.exp` is a parameter
`expf`, and `fit_isotonic`'s fitted `IsotonicRegression.predict` is a
parameter `isoFit`.
-/

/-- A fitted calibrator `{method, params}`. -/
inductive Calibrator
  | platt (A B : ℚ)
  | isotonic (boundaries : List (ℚ × ℚ))
deriving DecidableEq

/-- `apply_platt`, calibration.py lines 38-42, with `math.exp` abstracted
as `expf`. -/
def apply_platt (expf : ℚ → ℚ) (score A B : ℚ) : ℚ :=
  let s := max 0 (min 100 score) / 100
  1 / (1 + expf (-(A * s + B)))

/-- `t = (s - x0) / (x1 - x0) if x1 != x0 else 1.0`. -/
def interpT (s x0 x1 : ℚ) : ℚ := if x1 ≠ x0 then (s - x0) / (x1 - x0) else 1

/-- The `for i in range(len(boundaries) - 1)` scan of `apply_isotonic`:
returns the interpolated value at the first segment containing `s`. -/
def isoScan (s : ℚ) : List (ℚ × ℚ) → Option ℚ
  | (x0, p0) :: (x1, p1) :: rest =>
    if x0 ≤ s ∧ s ≤ x1 then some (p0 + interpT s x0 x1 * (p1 - p0))
    else isoScan s ((x1, p1) :: rest)
  | _ => none

/-- Scan result with the `return boundaries[-1][1]` fallback of
`apply_isotonic` when no segment contains `s`. -/
def isoLookup (s : ℚ) (boundaries : List (ℚ × ℚ)) : ℚ :=
  match isoScan s boundaries with
  | some p => p
  | none => (boundaries.getLastD (0, 0)).2

/-- `apply_isotonic`, calibration.py lines 45-56: clamp and rescale the
score, return it unchanged when there are no boundaries, else scan the
segments, falling back to the last breakpoint's probability. -/
def apply_isotonic (score : ℚ) (boundaries : List (ℚ × ℚ)) : ℚ :=
  let s := max 0 (min 100 score) / 100
  if boundaries = [] then s
  else isoLookup s boundaries

/-- `calibrate_score`, calibration.py lines 59-62: dispatch on the method. -/
def calibrate_score (expf : ℚ → ℚ) (c : Calibrator) (score : ℚ) : ℚ :=
  match c with
  | .isotonic bs => apply_isotonic score bs
  | .platt A B => apply_platt expf score A B

/-- Breakpoint lists that are monotone non-decreasing in both coordinates
(the shape of fitted isotonic boundaries). -/
def chainLe : List (ℚ × ℚ) → Bool
  | a :: b :: rest => (decide (a.1 ≤ b.1) && decide (a.2 ≤ b.2)) && chainLe (b :: rest)
  | _ => true

/-- Result of a calibrator fit.  `insufficientData` is the distinct
"insufficient data" condition the spec requires; `depError` is the only
error the code can return (scikit-learn/numpy missing). -/
inductive FitResult
  | calibrator (c : Calibrator)
  | insufficientData
  | depError (msg : String)
deriving DecidableEq

/-- Whether a fit returned a calibrator. -/
def FitResult.isCalibrator : FitResult → Bool
  | .calibrator _ => true
  | _ => false

/-- The storage grid `np.unique(np.clip(np.linspace(0, 1, 101), 0, 1))`:
the 101 points i/100. -/
def isoGrid : List ℚ := (List.range 101).map (fun i => (i : ℚ) / 100)

/-- `fit_isotonic`, calibration.py lines 26-35.  `hasSklearn` models the
`_HAS_SKLEARN` import guard and `isoFit` the externally fitted
`IsotonicRegression.predict` for the given data.  There is no branch
inspecting the labels: whenever sklearn is available the function returns
a calibrator, for single-class label sets included. -/
def fit_isotonic (hasSklearn : Bool) (isoFit : List ℤ → List ℚ → ℚ → ℚ)
    (y_true : List ℤ) (y_score : List ℚ) : FitResult :=
  if hasSklearn = false then .depError "scikit-learn/numpy required"
  else .calibrator (.isotonic (isoGrid.map (fun x => (x, isoFit y_true y_score x))))

/-!
Helper lemmas.
-/

theorem rhe_lb (q : ℚ) : ⌊q⌋ ≤ rhe q := by
  unfold rhe
  split_ifs <;> omega

theorem rhe_ub (q : ℚ) : rhe q ≤ ⌊q⌋ + 1 := by
  unfold rhe
  split_ifs <;> omega

theorem rhe_mono {a b : ℚ} (h : a ≤ b) : rhe a ≤ rhe b := by
  rcases lt_or_le ⌊a⌋ ⌊b⌋ with hf | hf
  · calc rhe a ≤ ⌊a⌋ + 1 := rhe_ub a
    _ ≤ ⌊b⌋ := by omega
    _ ≤ rhe b := rhe_lb b
  · have hfe : ⌊a⌋ = ⌊b⌋ := le_antisymm (Int.floor_mono h) hf
    unfold rhe
    rw [hfe]
    have hr : a - (⌊b⌋ : ℚ) ≤ b - (⌊b⌋ : ℚ) := by linarith
    split_ifs <;> first | omega | linarith

theorem roundTo_mono (d : ℕ) {a b : ℚ} (h : a ≤ b) : roundTo d a ≤ roundTo d b := by
  unfold roundTo
  have hp : (0 : ℚ) < 10 ^ d := by positivity
  have h1 : a * 10 ^ d ≤ b * 10 ^ d := by
    exact mul_le_mul_of_nonneg_right h (le_of_lt hp)
  have h2 : rhe (a * 10 ^ d) ≤ rhe (b * 10 ^ d) := rhe_mono h1
  have h3 : ((rhe (a * 10 ^ d) : ℚ)) ≤ ((rhe (b * 10 ^ d) : ℚ)) := by exact_mod_cast h2
  exact div_le_div_of_nonneg_right h3 (le_of_lt hp)

theorem rhe_zero : rhe 0 = 0 := by
  unfold rhe
  norm_num

theorem roundTo_zero (d : ℕ) : roundTo d 0 = 0 := by
  unfold roundTo
  rw [zero_mul, rhe_zero]
  norm_num

theorem rhe_eq_down {q : ℚ} {n : ℤ} (h1 : (n : ℚ) ≤ q) (h2 : q < n + 1/2) : rhe q = n := by
  have hf : ⌊q⌋ = n := Int.floor_eq_iff.mpr ⟨h1, by linarith⟩
  unfold rhe
  rw [hf, if_pos]
  linarith

theorem rhe_eq_up {q : ℚ} {n : ℤ} (h1 : (n : ℚ) + 1/2 < q) (h2 : q < n + 1) : rhe q = n + 1 := by
  have hf : ⌊q⌋ = n := Int.floor_eq_iff.mpr ⟨by linarith, by linarith⟩
  unfold rhe
  rw [hf, if_neg (by linarith), if_pos (by linarith)]

theorem roundTo_eq_down {d : ℕ} {q : ℚ} {n : ℤ} (h1 : (n : ℚ) ≤ q * 10 ^ d)
    (h2 : q * 10 ^ d < n + 1/2) : roundTo d q = n / 10 ^ d := by
  unfold roundTo
  rw [rhe_eq_down h1 h2]

theorem roundTo_eq_up {d : ℕ} {q : ℚ} {n : ℤ} (h1 : (n : ℚ) + 1/2 < q * 10 ^ d)
    (h2 : q * 10 ^ d < n + 1) : roundTo d q = (n + 1) / 10 ^ d := by
  unfold roundTo
  rw [rhe_eq_up h1 h2]
  push_cast
  ring

theorem totalWeight_scale (fs : List RiskFactor) (c : ℚ) :
    totalWeight (fs.map (fun f => { f with weight := f.weight * c })) = totalWeight fs * c := by
  unfold totalWeight
  rw [List.map_map]
  induction fs with
  | nil => simp
  | cons f fs ih => simp_all [add_mul]

theorem renormalize_sum {fs : List RiskFactor} (h : 0 < totalWeight fs) :
    |totalWeight (renormalize fs) - 1| ≤ 1/100 := by
  unfold renormalize
  split_ifs with hc
  · rw [totalWeight_scale, mul_one_div, div_self (ne_of_gt h)]
    norm_num
  · rw [not_and_or] at hc
    rcases hc with hc | hc
    · exact absurd h hc
    · linarith [not_lt.mp hc]

/-- C1 (amended): for every factor list assembled by `calculate_score`
whose pre-renormalization total weight is positive, the post-step weights
sum to 1.0 within 0.01 (not within 1e-6). -/
theorem c1_weight_sum (rigid : Bool) (incScore patScore : ℚ) (netScore : Option ℚ)
    (deepfake : Option DeepfakeInput) (idScore : Option ℚ) (claimScore : ℚ)
    (overrides : Option (List (String × ℚ)))
    (h : 0 < totalWeight (buildFactors incScore patScore netScore deepfake idScore claimScore
      (mergeWeights overrides (if idScore.isSome then WEIGHTS_ID else WEIGHTS)) idScore.isSome)) :
    |totalWeight (calculate_score rigid incScore patScore netScore deepfake idScore claimScore
      overrides).risk_factors - 1| ≤ 1/100 := by
  have := renormalize_sum h
  simpa [calculate_score] using this

/-- C1 witness: a concrete run (no overrides, general flow) where the
hypothesis holds and the renormalized weights sum to 1 within 0.01. -/
theorem c1_witness :
    0 < totalWeight (buildFactors 80 20 none none none 10
        (mergeWeights none (if (none : Option ℚ).isSome then WEIGHTS_ID else WEIGHTS))
        (none : Option ℚ).isSome)
    ∧ |totalWeight (calculate_score true 80 20 none none none 10 none).risk_factors - 1|
        ≤ 1/100 := by
  have h : 0 < totalWeight (buildFactors 80 20 none none none 10
      (mergeWeights none (if (none : Option ℚ).isSome then WEIGHTS_ID else WEIGHTS))
      (none : Option ℚ).isSome) := by
    simp [buildFactors, mergeWeights, WEIGHTS, getWeight, totalWeight, List.lookup]
    norm_num
  exact ⟨h, c1_weight_sum true 80 20 none none none 10 none h⟩

/-- C1 counterexample: with the caller override `inconsistency -> 0.305`
and all five general-flow factors present, the total weight is 1.005, the
renormalization guard `|W - 1| > 0.01` does not fire, and the weights of
the returned factors sum to 1.005, which is not within 1e-6 of 1.0. -/
theorem c1_counterexample :
    totalWeight (calculate_score true 10 10 (some 10) (some ⟨"success", 10, none⟩) none 10
      (some [("inconsistency", 61/200)])).risk_factors = 201/200
    ∧ ¬(|(201 : ℚ)/200 - 1| ≤ 1/1000000) := by
  constructor
  · simp [calculate_score, buildFactors, mergeWeights, WEIGHTS, getWeight, renormalize,
      totalWeight, List.lookup, lt_abs]
    norm_num
  · rw [abs_le]
    intro h
    have := h.2
    norm_num at this

/-- C6: for a non-empty factor list with some score > 0, the confidence is
the clamp of `1 - variance(active)/2500` into `[0.5, 0.95]` over the
strictly positive scores, hence lies in `[0.5, 0.95]`; for a non-empty
list whose scores are all 0, the confidence is the fixed constant 0.85. -/
theorem c6_confidence (fs : List RiskFactor) (h : fs ≠ []) :
    ((∃ f ∈ fs, 0 < f.score) →
      calculate_confidence fs
          = max (1/2) (min (19/20) (1 - varianceOf (activeScores fs) / 2500))
        ∧ 1/2 ≤ calculate_confidence fs ∧ calculate_confidence fs ≤ 19/20)
    ∧ ((∀ f ∈ fs, f.score = 0) → calculate_confidence fs = 17/20) := by
  have hmap : fs.map (fun f => f.score) ≠ [] := by
    simpa [List.map_eq_nil_iff] using h
  constructor
  · rintro ⟨f, hf, hpos⟩
    have hmem : f.score ∈ (fs.map (fun f => f.score)).filter (fun s => decide (0 < s)) := by
      refine List.mem_filter.mpr ⟨List.mem_map_of_mem _ hf, by simpa using hpos⟩
    have hact : (fs.map (fun f => f.score)).filter (fun s => decide (0 < s)) ≠ [] :=
      List.ne_nil_of_mem hmem
    have heq : calculate_confidence fs
        = max (1/2) (min (19/20) (1 - varianceOf (activeScores fs) / 2500)) := by
      unfold calculate_confidence
      rw [if_neg hmap, if_neg hact]
      rfl
    refine ⟨heq, ?_, ?_⟩
    · rw [heq]; exact le_max_left _ _
    · rw [heq]
      exact max_le (by norm_num) (min_le_left _ _)
  · intro hz
    have hact : (fs.map (fun f => f.score)).filter (fun s => decide (0 < s)) = [] := by
      refine List.filter_eq_nil_iff.mpr ?_
      intro a ha
      obtain ⟨f, hf, rfl⟩ := List.mem_map.mp ha
      simp [hz f hf]
    unfold calculate_confidence
    rw [if_neg hmap, if_pos hact]

/-- C6 witness: concrete factor lists exercising both branches. -/
theorem c6_witness :
    calculate_confidence [⟨"A", 50, 1/4, "", []⟩, ⟨"B", 30, 1/4, "", []⟩]
        = max (1/2) (min (19/20)
            (1 - varianceOf (activeScores [⟨"A", 50, 1/4, "", []⟩, ⟨"B", 30, 1/4, "", []⟩]) / 2500))
    ∧ calculate_confidence [⟨"A", 0, 1/4, "", []⟩] = 17/20 := by
  constructor
  · exact ((c6_confidence [⟨"A", 50, 1/4, "", []⟩, ⟨"B", 30, 1/4, "", []⟩]
      (by simp)).1 ⟨⟨"A", 50, 1/4, "", []⟩, by simp, by norm_num⟩).1
  · exact (c6_confidence [⟨"A", 0, 1/4, "", []⟩] (by simp)).2
      (by intro f hf; simp at hf; rw [hf])

/-- C10: every zero-denominator case of `binary_metrics` is guarded and
yields 0.0: precision when TP+FP = 0, recall when TP+FN = 0, FPR when
FP+TN = 0, and F1 when precision + recall = 0 (totality holds by
construction of the embedding). -/
theorem c10_zero_guards (y_true y_pred : List ℤ) (h : y_true.length = y_pred.length) :
    (tpCount y_true y_pred + fpCount y_true y_pred = 0 →
        precisionOf (tpCount y_true y_pred) (fpCount y_true y_pred) = 0
        ∧ (binary_metrics y_true y_pred).precision = 0)
    ∧ (tpCount y_true y_pred + fnCount y_true y_pred = 0 →
        recallOf (tpCount y_true y_pred) (fnCount y_true y_pred) = 0
        ∧ (binary_metrics y_true y_pred).«recall» = 0)
    ∧ (fpCount y_true y_pred + tnCount y_true y_pred = 0 →
        fprOf (fpCount y_true y_pred) (tnCount y_true y_pred) = 0
        ∧ (binary_metrics y_true y_pred).fpr = 0)
    ∧ (precisionOf (tpCount y_true y_pred) (fpCount y_true y_pred)
          + recallOf (tpCount y_true y_pred) (fnCount y_true y_pred) = 0 →
        (binary_metrics y_true y_pred).f1 = 0) := by
  refine ⟨?_, ?_, ?_, ?_⟩
  · intro h0
    have hp : precisionOf (tpCount y_true y_pred) (fpCount y_true y_pred) = 0 := by
      unfold precisionOf
      rw [if_neg (by omega)]
    exact ⟨hp, by simp [binary_metrics, hp, roundTo_zero]⟩
  · intro h0
    have hp : recallOf (tpCount y_true y_pred) (fnCount y_true y_pred) = 0 := by
      unfold recallOf
      rw [if_neg (by omega)]
    exact ⟨hp, by simp [binary_metrics, hp, roundTo_zero]⟩
  · intro h0
    have hp : fprOf (fpCount y_true y_pred) (tnCount y_true y_pred) = 0 := by
      unfold fprOf
      rw [if_neg (by omega)]
    exact ⟨hp, by simp [binary_metrics, hp, roundTo_zero]⟩
  · intro h0
    have hp : f1Of (precisionOf (tpCount y_true y_pred) (fpCount y_true y_pred))
        (recallOf (tpCount y_true y_pred) (fnCount y_true y_pred)) = 0 := by
      unfold f1Of
      rw [if_neg (by rw [h0]; norm_num)]
    simp [binary_metrics, hp, roundTo_zero]

/-- C10 witness: on `y_true = [0]`, `y_pred = [0]` every guard fires. -/
theorem c10_witness :
    (binary_metrics [0] [0]).precision = 0 ∧ (binary_metrics [0] [0]).«recall» = 0
    ∧ (binary_metrics [0] [0]).fpr = 0 ∧ (binary_metrics [0] [0]).f1 = 0 := by
  have h := c10_zero_guards [0] [0] rfl
  refine ⟨(h.1 (by decide)).2, (h.2.1 (by decide)).2, ?_, h.2.2.2 ?_⟩
  · have : fprOf (fpCount [0] [0]) (tnCount [0] [0]) = 0 := by
      unfold fprOf
      rw [if_pos (by decide)]
      norm_num [show fpCount [0] [0] = 0 from by decide]
    simp [binary_metrics, this, roundTo_zero]
  · have h1 : precisionOf (tpCount [0] [0]) (fpCount [0] [0]) = 0 := (h.1 (by decide)).1
    have h2 : recallOf (tpCount [0] [0]) (fnCount [0] [0]) = 0 := (h.2.1 (by decide)).1
    rw [h1, h2]
    norm_num

theorem calc_overall (rigid : Bool) (incS patS : ℚ) (net : Option ℚ) (df : Option DeepfakeInput)
    (idS : Option ℚ) (claimS : ℚ) (ov : Option (List (String × ℚ))) :
    (calculate_score rigid incS patS net df idS claimS ov).overall_score
      = roundTo 1 (nudgeScore rigid idS.isSome (weightedSum (renormalize
          (buildFactors incS patS net df idS claimS
            (mergeWeights ov (if idS.isSome then WEIGHTS_ID else WEIGHTS)) idS.isSome)))) := rfl

theorem calc_level (rigid : Bool) (incS patS : ℚ) (net : Option ℚ) (df : Option DeepfakeInput)
    (idS : Option ℚ) (claimS : ℚ) (ov : Option (List (String × ℚ))) :
    (calculate_score rigid incS patS net df idS claimS ov).risk_level
      = getRiskLevel rigid idS.isSome (nudgeScore rigid idS.isSome (weightedSum (renormalize
          (buildFactors incS patS net df idS claimS
            (mergeWeights ov (if idS.isSome then WEIGHTS_ID else WEIGHTS)) idS.isSome)))) := rfl

theorem calc_conf (rigid : Bool) (incS patS : ℚ) (net : Option ℚ) (df : Option DeepfakeInput)
    (idS : Option ℚ) (claimS : ℚ) (ov : Option (List (String × ℚ))) :
    (calculate_score rigid incS patS net df idS claimS ov).confidence
      = roundTo 2 (calculate_confidence (renormalize
          (buildFactors incS patS net df idS claimS
            (mergeWeights ov (if idS.isSome then WEIGHTS_ID else WEIGHTS)) idS.isSome))) := rfl

theorem renorm_scores (fs : List RiskFactor) :
    (renormalize fs).map (fun f => f.score) = fs.map (fun f => f.score) := by
  unfold renormalize
  split_ifs
  · rw [List.map_map]
    rfl
  · rfl

theorem renorm_ne_nil {fs : List RiskFactor} (h : fs ≠ []) : renormalize fs ≠ [] := by
  unfold renormalize
  split_ifs
  · simpa [List.map_eq_nil_iff]
  · exact h

theorem renorm_score_zero {fs : List RiskFactor} (h : ∀ f ∈ fs, f.score = 0) :
    ∀ f ∈ renormalize fs, f.score = 0 := by
  unfold renormalize
  split_ifs
  · intro f hf
    obtain ⟨g, hg, rfl⟩ := List.mem_map.mp hf
    exact h g hg
  · exact h

theorem weightedSum_zero {fs : List RiskFactor} (h : ∀ f ∈ fs, f.score = 0) :
    weightedSum fs = 0 := by
  unfold weightedSum
  induction fs with
  | nil => rfl
  | cons f fs ih =>
    rw [List.map_cons, List.sum_cons, h f (List.mem_cons_self f fs), zero_mul, zero_add]
    exact ih (fun g hg => h g (List.mem_cons_of_mem f hg))

theorem conf_all_zero {fs : List RiskFactor} (h : fs ≠ []) (hz : ∀ f ∈ fs, f.score = 0) :
    calculate_confidence fs = 17/20 := by
  have hmap : fs.map (fun f => f.score) ≠ [] := by simpa [List.map_eq_nil_iff] using h
  have hact : (fs.map (fun f => f.score)).filter (fun s => decide (0 < s)) = [] := by
    refine List.filter_eq_nil_iff.mpr ?_
    intro a ha
    obtain ⟨f, hf, rfl⟩ := List.mem_map.mp ha
    simp [hz f hf]
  unfold calculate_confidence
  rw [if_neg hmap, if_pos hact]

theorem level_zero (r b : Bool) : getRiskLevel r b 0 = "low" := by
  cases r <;> cases b <;> simp [getRiskLevel] <;> norm_num

theorem c2_all_sources_fail (rigid : Bool) (net : Option ℚ) (df : Option DeepfakeInput)
    (hnet : net = none ∨ net = some 0)
    (hdf : df = none ∨ ∃ d, df = some d ∧ d.status ≠ "success") :
    (calculate_score rigid 0 0 net df none 0 none).overall_score = 0
    ∧ (calculate_score rigid 0 0 net df none 0 none).risk_level = "low"
    ∧ (calculate_score rigid 0 0 net df none 0 none).confidence = 17/20 := by
  have hz : ∀ f ∈ buildFactors 0 0 net df none 0
      (mergeWeights none (if (none : Option ℚ).isSome then WEIGHTS_ID else WEIGHTS))
      (none : Option ℚ).isSome, f.score = 0 := by
    rcases hnet with h | h <;> subst h <;> rcases hdf with h2 | ⟨d, hd, hs⟩ <;>
      first
        | (subst h2; simp [buildFactors])
        | (subst hd; simp [buildFactors, hs])
  have hne : buildFactors 0 0 net df none 0
      (mergeWeights none (if (none : Option ℚ).isSome then WEIGHTS_ID else WEIGHTS))
      (none : Option ℚ).isSome ≠ [] := by
    simp [buildFactors]
  have hover : weightedSum (renormalize (buildFactors 0 0 net df none 0
      (mergeWeights none (if (none : Option ℚ).isSome then WEIGHTS_ID else WEIGHTS))
      (none : Option ℚ).isSome)) = 0 := weightedSum_zero (renorm_score_zero hz)
  have hc : roundTo 2 (17/20 : ℚ) = 17/20 := by
    rw [roundTo_eq_down (n := 85) (by norm_num) (by norm_num)]
    norm_num
  refine ⟨?_, ?_, ?_⟩
  · rw [calc_overall, hover]
    simp [nudgeScore, roundTo_zero]
  · rw [calc_level, hover]
    simp [nudgeScore]
    exact level_zero rigid false
  · rw [calc_conf, conf_all_zero (renorm_ne_nil hne) (renorm_score_zero hz), hc]

/-- C2 witness: the concrete all-failed case (every evaluator raised, so
network and deepfake results are absent) in rigid mode. -/
theorem c2_witness :
    (calculate_score true 0 0 none none none 0 none).overall_score = 0
    ∧ (calculate_score true 0 0 none none none 0 none).risk_level = "low"
    ∧ (calculate_score true 0 0 none none none 0 none).confidence = 17/20 :=
  c2_all_sources_fail true none none (Or.inl rfl) (Or.inl rfl)

/-- C3 (amended): whenever the renormalization guard fires (positive total
weight differing from 1 by more than 0.01), the overall score is the sum
of `score * (weight / total)` over the present factors; for the scenario
{Inconsistency 80 x 0.3, Pattern 20 x 0.25, Claim 10 x 0.15} the result is
305/7 ~ 43.57, reported as 43.6 after rounding (not 42.5). -/
theorem c3_weighted_combination :
    (∀ fs : List RiskFactor, 0 < totalWeight fs → 1/100 < |totalWeight fs - 1| →
      weightedSum (renormalize fs)
        = (fs.map (fun f => f.score * (f.weight / totalWeight fs))).sum)
    ∧ (calculate_score true 80 20 none none none 10 none).overall_score = 218/5
    ∧ (calculate_score false 80 20 none none none 10 none).overall_score = 218/5 := by
  refine ⟨?_, ?_, ?_⟩
  · intro fs h1 h2
    unfold renormalize weightedSum
    rw [if_pos ⟨h1, h2⟩, List.map_map]
    simp [Function.comp, mul_one_div]
    rfl
  · rw [calc_overall]
    simp [buildFactors, mergeWeights, WEIGHTS, getWeight, renormalize, totalWeight,
      weightedSum, nudgeScore, List.lookup, lt_abs]
    norm_num
    rw [roundTo_eq_up (n := 435) (by norm_num) (by norm_num)]
    norm_num
  · rw [calc_overall]
    simp [buildFactors, mergeWeights, WEIGHTS, getWeight, renormalize, totalWeight,
      weightedSum, nudgeScore, List.lookup, lt_abs]
    norm_num
    rw [roundTo_eq_up (n := 435) (by norm_num) (by norm_num)]
    norm_num

/-- C3 witness: the general weighted-combination identity applied to the
scenario factor list itself (total weight 0.7). -/
theorem c3_witness :
    weightedSum (renormalize
        [⟨"Inconsistencies", 80, 3/10, "", []⟩, ⟨"Fraud Pattern Match", 20, 1/4, "", []⟩,
         ⟨"Claim Characteristics", 10, 3/20, "", []⟩])
      = (([⟨"Inconsistencies", 80, 3/10, "", []⟩, ⟨"Fraud Pattern Match", 20, 1/4, "", []⟩,
          ⟨"Claim Characteristics", 10, 3/20, "", []⟩] : List RiskFactor).map
          (fun f => f.score * (f.weight / totalWeight
            [⟨"Inconsistencies", 80, 3/10, "", []⟩, ⟨"Fraud Pattern Match", 20, 1/4, "", []⟩,
             ⟨"Claim Characteristics", 10, 3/20, "", []⟩]))).sum :=
  c3_weighted_combination.1 _
    (by norm_num [totalWeight])
    (by norm_num [totalWeight, lt_abs])

/-- C3 counterexample: on the spec's Scenario A factor set, the scorer
returns 43.6 (unrounded 305/7 ~ 43.57), which is not within 1 of the
claimed 42.5. -/
theorem c3_counterexample :
    (calculate_score true 80 20 none none none 10 none).overall_score
        = (calculate_score false 80 20 none none none 10 none).overall_score
    ∧ (calculate_score true 80 20 none none none 10 none).overall_score = 218/5
    ∧ ¬(|(218 : ℚ)/5 - 85/2| ≤ 1) := by
  refine ⟨rfl, ?_, by rw [abs_le]; intro h; have := h.2; norm_num at this⟩
  rw [calc_overall]
  simp [buildFactors, mergeWeights, WEIGHTS, getWeight, renormalize, totalWeight,
    weightedSum, nudgeScore, List.lookup, lt_abs]
  norm_num
  rw [roundTo_eq_up (n := 435) (by norm_num) (by norm_num)]
  norm_num

/-- C4 (amended): the factor list and the confidence do not depend on the
RIGID_SCORING environment flag, and outside the ID flow neither does the
overall score; the counterexample shows the ID-flow overall score does. -/
theorem c4_determinism :
    (∀ r1 r2 : Bool, ∀ incS patS : ℚ, ∀ net : Option ℚ, ∀ df : Option DeepfakeInput,
        ∀ idS : Option ℚ, ∀ claimS : ℚ, ∀ ov : Option (List (String × ℚ)),
      (calculate_score r1 incS patS net df idS claimS ov).risk_factors
          = (calculate_score r2 incS patS net df idS claimS ov).risk_factors
      ∧ (calculate_score r1 incS patS net df idS claimS ov).confidence
          = (calculate_score r2 incS patS net df idS claimS ov).confidence)
    ∧ (∀ r1 r2 : Bool, ∀ incS patS : ℚ, ∀ net : Option ℚ, ∀ df : Option DeepfakeInput,
        ∀ claimS : ℚ, ∀ ov : Option (List (String × ℚ)),
      (calculate_score r1 incS patS net df none claimS ov).overall_score
          = (calculate_score r2 incS patS net df none claimS ov).overall_score) := by
  constructor
  · intro r1 r2 incS patS net df idS claimS ov
    exact ⟨rfl, rfl⟩
  · intro r1 r2 incS patS net df claimS ov
    rw [calc_overall, calc_overall]
    simp [nudgeScore]

/-- C4 counterexample: an ID-flow case where both RIGID_SCORING settings
build the identical factor list yet return different overall scores
(35 with the flag set, 30 without): the score is not a function of the
factor list alone. -/
theorem c4_counterexample :
    (calculate_score true 30 30 none none (some 30) 30 none).risk_factors
        = (calculate_score false 30 30 none none (some 30) 30 none).risk_factors
    ∧ (calculate_score true 30 30 none none (some 30) 30 none).overall_score = 35
    ∧ (calculate_score false 30 30 none none (some 30) 30 none).overall_score = 30 := by
  refine ⟨rfl, ?_, ?_⟩
  · rw [calc_overall]
    simp [buildFactors, mergeWeights, WEIGHTS_ID, getWeight, renormalize, totalWeight,
      weightedSum, nudgeScore, List.lookup, lt_abs]
    norm_num [min_def]
    rw [roundTo_eq_down (n := 350) (by norm_num) (by norm_num)]
    norm_num
  · rw [calc_overall]
    simp [buildFactors, mergeWeights, WEIGHTS_ID, getWeight, renormalize, totalWeight,
      weightedSum, nudgeScore, List.lookup, lt_abs]
    norm_num [min_def]
    rw [roundTo_eq_down (n := 300) (by norm_num) (by norm_num)]
    norm_num

theorem mat_recall (yt : List ℤ) (ys : List ℚ) (t : ℚ) :
    (metrics_at_threshold yt ys t).«recall»
      = roundTo 4 (recallOf (tpCount yt (scores_to_binary ys t))
          (fnCount yt (scores_to_binary ys t))) := rfl

theorem mat_precision (yt : List ℤ) (ys : List ℚ) (t : ℚ) :
    (metrics_at_threshold yt ys t).precision
      = roundTo 4 (precisionOf (tpCount yt (scores_to_binary ys t))
          (fpCount yt (scores_to_binary ys t))) := rfl

theorem tp_antitone (yt : List ℤ) (ys : List ℚ) {t1 t2 : ℚ} (h : t1 ≤ t2) :
    tpCount yt (scores_to_binary ys t2) ≤ tpCount yt (scores_to_binary ys t1) := by
  induction yt generalizing ys with
  | nil => simp [tpCount]
  | cons a as ih =>
    cases ys with
    | nil => simp [scores_to_binary, tpCount]
    | cons s ss =>
      simp only [scores_to_binary, List.map_cons, tpCount]
      refine Nat.add_le_add ?_ (ih ss)
      by_cases h2 : t2 ≤ s
      · have h1 : t1 ≤ s := le_trans h h2
        simp [h1, h2]
      · simp [h2]

theorem tpfn_const (yt : List ℤ) (ys : List ℚ) (t : ℚ) :
    tpCount yt (scores_to_binary ys t) + fnCount yt (scores_to_binary ys t)
      = pairPos yt (scores_to_binary ys t) := by
  induction yt generalizing ys with
  | nil => simp [tpCount, fnCount, pairPos]
  | cons a as ih =>
    cases ys with
    | nil => simp [scores_to_binary, tpCount, fnCount, pairPos]
    | cons s ss =>
      simp only [scores_to_binary, List.map_cons, tpCount, fnCount, pairPos]
      have := ih ss
      simp only [scores_to_binary] at this
      by_cases h2 : t ≤ s
      · simp only [if_pos h2]
        by_cases ha : a = 1 <;> simp [ha] <;> omega
      · simp only [if_neg h2]
        by_cases ha : a = 1 <;> simp [ha] <;> omega

theorem pairPos_map (yt : List ℤ) (ys : List ℚ) (f g : ℚ → ℤ) :
    pairPos yt (ys.map f) = pairPos yt (ys.map g) := by
  induction yt generalizing ys with
  | nil => simp [pairPos]
  | cons a as ih =>
    cases ys with
    | nil => simp [pairPos]
    | cons s ss => simp only [List.map_cons, pairPos, ih ss]

theorem recallOf_mono {c d a b : ℕ} (hsum : a + b = c + d) (hle : c ≤ a) :
    recallOf c d ≤ recallOf a b := by
  unfold recallOf
  rcases Nat.eq_zero_or_pos (a + b) with h0 | h0
  · rw [if_neg (by omega), if_neg (by omega)]
  · rw [if_pos (by omega), if_pos (by omega)]
    have hD : ((c : ℚ) + d) = ((a : ℚ) + b) := by exact_mod_cast hsum.symm
    rw [hD]
    exact div_le_div_of_nonneg_right (by exact_mod_cast hle)
      (by positivity)

/-- C5 (amended): over a fixed dataset, the recall reported by
`metrics_at_threshold` is non-increasing as the threshold increases
(prediction rule score >= threshold); precision, by contrast, is not
monotone (see the counterexample). -/
theorem c5_recall_antitone (yt : List ℤ) (ys : List ℚ) (t1 t2 : ℚ)
    (hlen : yt.length = ys.length) (h : t1 ≤ t2) :
    (metrics_at_threshold yt ys t2).«recall» ≤ (metrics_at_threshold yt ys t1).«recall» := by
  rw [mat_recall, mat_recall]
  apply roundTo_mono
  apply recallOf_mono
  · rw [tpfn_const, tpfn_const]
    exact pairPos_map yt ys _ _
  · exact tp_antitone yt ys h

/-- C5 witness: the recall monotonicity applied to the concrete dataset
labels [1,0,1], scores [10,20,30] at thresholds 0 and 15. -/
theorem c5_witness :
    ([1, 0, 1] : List ℤ).length = ([10, 20, 30] : List ℚ).length
    ∧ (0 : ℚ) ≤ 15
    ∧ (metrics_at_threshold [1, 0, 1] [10, 20, 30] 15).«recall»
        ≤ (metrics_at_threshold [1, 0, 1] [10, 20, 30] 0).«recall» :=
  ⟨rfl, by norm_num, c5_recall_antitone [1, 0, 1] [10, 20, 30] 0 15 rfl (by norm_num)⟩

/-- C5 counterexample: on labels [1,0,1] with scores [10,20,30], raising
the threshold from 0 to 15 makes precision fall from 0.6667 to 0.5, so
precision is not non-decreasing in the threshold. -/
theorem c5_counterexample :
    (metrics_at_threshold [1, 0, 1] [10, 20, 30] 0).precision = 6667/10000
    ∧ (metrics_at_threshold [1, 0, 1] [10, 20, 30] 15).precision = 1/2
    ∧ (0 : ℚ) < 15
    ∧ ¬((metrics_at_threshold [1, 0, 1] [10, 20, 30] 0).precision
        ≤ (metrics_at_threshold [1, 0, 1] [10, 20, 30] 15).precision) := by
  have e0 : scores_to_binary [10, 20, 30] 0 = [1, 1, 1] := by
    norm_num [scores_to_binary]
  have e15 : scores_to_binary [10, 20, 30] 15 = [0, 1, 1] := by
    norm_num [scores_to_binary]
  have h0 : (metrics_at_threshold [1, 0, 1] [10, 20, 30] 0).precision = 6667/10000 := by
    rw [mat_precision, e0]
    rw [show tpCount [1, 0, 1] [1, 1, 1] = 2 from rfl, show fpCount [1, 0, 1] [1, 1, 1] = 1 from rfl]
    rw [show precisionOf 2 1 = 2/3 from by norm_num [precisionOf]]
    rw [roundTo_eq_up (n := 6666) (by norm_num) (by norm_num)]
    norm_num
  have h15 : (metrics_at_threshold [1, 0, 1] [10, 20, 30] 15).precision = 1/2 := by
    rw [mat_precision, e15]
    rw [show tpCount [1, 0, 1] [0, 1, 1] = 1 from rfl, show fpCount [1, 0, 1] [0, 1, 1] = 1 from rfl]
    rw [show precisionOf 1 1 = 1/2 from by norm_num [precisionOf]]
    rw [roundTo_eq_down (n := 5000) (by norm_num) (by norm_num)]
    norm_num
  refine ⟨h0, h15, by norm_num, ?_⟩
  rw [h0, h15]
  norm_num

theorem optStep_inv (yt : List ℤ) (ys : List ℚ) (mf : Option ℚ) (mw : Option ℤ)
    (sp cp : ℚ) (acc : Option (ℚ × ℚ)) (t b v : ℚ)
    (hacc : ∀ p q, acc = some (p, q) → isFeasible yt ys mf mw sp cp p = true
        ∧ q = (value_at_threshold yt ys p sp cp).value)
    (h : optStep yt ys mf mw sp cp acc t = some (b, v)) :
    isFeasible yt ys mf mw sp cp b = true
    ∧ v = (value_at_threshold yt ys b sp cp).value := by
  cases acc with
  | none =>
    by_cases hf : isFeasible yt ys mf mw sp cp t = true
    · simp only [optStep, if_pos hf, Option.some.injEq, Prod.mk.injEq] at h
      obtain ⟨rfl, rfl⟩ := h
      exact ⟨hf, rfl⟩
    · exact absurd h (by simp [optStep, hf])
  | some p =>
    obtain ⟨p1, p2⟩ := p
    by_cases hf : isFeasible yt ys mf mw sp cp t = true
    · by_cases hlt : p2 < (value_at_threshold yt ys t sp cp).value
      · simp only [optStep, if_pos hf, if_pos hlt, Option.some.injEq, Prod.mk.injEq] at h
        obtain ⟨rfl, rfl⟩ := h
        exact ⟨hf, rfl⟩
      · simp only [optStep, if_pos hf, if_neg hlt, Option.some.injEq, Prod.mk.injEq] at h
        obtain ⟨rfl, rfl⟩ := h
        exact hacc _ _ rfl
    · simp only [optStep, if_neg hf, Option.some.injEq, Prod.mk.injEq] at h
      obtain ⟨rfl, rfl⟩ := h
      exact hacc _ _ rfl

theorem optLoop_none (yt : List ℤ) (ys : List ℚ) (mf : Option ℚ) (mw : Option ℤ)
    (sp cp : ℚ) : ∀ (ts : List ℚ) (acc : Option (ℚ × ℚ)),
    (optLoop yt ys mf mw sp cp ts acc = none ↔
      acc = none ∧ ∀ t ∈ ts, isFeasible yt ys mf mw sp cp t = false) := by
  intro ts
  induction ts with
  | nil => intro acc; simp [optLoop]
  | cons t ts ih =>
    intro acc
    rw [optLoop, ih]
    constructor
    · rintro ⟨hstep, hall⟩
      have hat : acc = none ∧ isFeasible yt ys mf mw sp cp t = false := by
        cases acc with
        | none =>
          by_cases hf : isFeasible yt ys mf mw sp cp t = true
          · exact absurd hstep (by simp [optStep, hf])
          · exact ⟨rfl, by simpa using hf⟩
        | some p =>
          obtain ⟨p1, p2⟩ := p
          exfalso
          by_cases hf : isFeasible yt ys mf mw sp cp t = true
          · by_cases hlt : p2 < (value_at_threshold yt ys t sp cp).value <;>
              simp [optStep, hf, hlt] at hstep
          · simp [optStep, hf] at hstep
      exact ⟨hat.1, List.forall_mem_cons.mpr ⟨hat.2, hall⟩⟩
    · rintro ⟨rfl, hall⟩
      obtain ⟨hft, hrest⟩ := List.forall_mem_cons.mp hall
      refine ⟨?_, hrest⟩
      unfold optStep
      rw [if_neg (by simp [hft])]

theorem optLoop_some (yt : List ℤ) (ys : List ℚ) (mf : Option ℚ) (mw : Option ℤ)
    (sp cp : ℚ) : ∀ (ts : List ℚ) (acc : Option (ℚ × ℚ)) (b v : ℚ),
    (∀ p q, acc = some (p, q) → isFeasible yt ys mf mw sp cp p = true
        ∧ q = (value_at_threshold yt ys p sp cp).value) →
    optLoop yt ys mf mw sp cp ts acc = some (b, v) →
    isFeasible yt ys mf mw sp cp b = true
    ∧ v = (value_at_threshold yt ys b sp cp).value
    ∧ (b ∈ ts ∨ acc = some (b, v))
    ∧ (∀ t ∈ ts, isFeasible yt ys mf mw sp cp t = true →
        (value_at_threshold yt ys t sp cp).value ≤ v)
    ∧ (∀ p q, acc = some (p, q) → q ≤ v) := by
  intro ts
  induction ts with
  | nil =>
    intro acc b v hacc h
    simp only [optLoop] at h
    obtain ⟨h1, h2⟩ := hacc b v h
    refine ⟨h1, h2, Or.inr h, by simp, ?_⟩
    intro p q hpq
    rw [h] at hpq
    simp only [Option.some.injEq, Prod.mk.injEq] at hpq
    rw [hpq.2]
  | cons t ts ih =>
    intro acc b v hacc h
    rw [optLoop] at h
    have hacc' : ∀ p q, optStep yt ys mf mw sp cp acc t = some (p, q) →
        isFeasible yt ys mf mw sp cp p = true
        ∧ q = (value_at_threshold yt ys p sp cp).value :=
      fun p q hpq => optStep_inv yt ys mf mw sp cp acc t p q hacc hpq
    obtain ⟨hfb, hvb, hmem, hmax, hprev⟩ := ih (optStep yt ys mf mw sp cp acc t) b v hacc' h
    refine ⟨hfb, hvb, ?_, ?_, ?_⟩
    · rcases hmem with hm | hm
      · exact Or.inl (List.mem_cons_of_mem t hm)
      · cases acc with
        | none =>
          simp only [optStep] at hm
          split_ifs at hm with hf
          simp only [Option.some.injEq, Prod.mk.injEq] at hm
          exact Or.inl (hm.1 ▸ List.mem_cons_self t ts)
        | some p =>
          obtain ⟨p1, p2⟩ := p
          simp only [optStep] at hm
          split_ifs at hm with hf hlt
          · simp only [Option.some.injEq, Prod.mk.injEq] at hm
            exact Or.inl (hm.1 ▸ List.mem_cons_self t ts)
          · exact Or.inr hm
          · exact Or.inr hm
    · intro u hu hfu
      rcases List.mem_cons.mp hu with rfl | hmem'
      · cases acc with
        | none =>
          exact hprev u (value_at_threshold yt ys u sp cp).value
            (by unfold optStep; rw [if_pos hfu])
        | some p =>
          obtain ⟨p1, p2⟩ := p
          by_cases hlt : p2 < (value_at_threshold yt ys u sp cp).value
          · exact hprev u (value_at_threshold yt ys u sp cp).value
              (by simp [optStep, hfu, hlt])
          · have hp2 : p2 ≤ v := hprev p1 p2
              (by simp [optStep, hfu, hlt])
            linarith [not_lt.mp hlt]
      · exact hmax u hmem' hfu
    · intro p q hpq
      subst hpq
      by_cases hf : isFeasible yt ys mf mw sp cp t = true
      · by_cases hlt : q < (value_at_threshold yt ys t sp cp).value
        · have := hprev t (value_at_threshold yt ys t sp cp).value
            (by simp [optStep, hf, hlt])
          linarith
        · exact hprev p q (by simp [optStep, hf, hlt])
      · exact hprev p q (by simp [optStep, hf])

/-- C9: `optimize_threshold` returns `None` exactly when no swept
threshold satisfies the FPR/workload constraints, and otherwise returns a
feasible swept threshold whose value `TP*savings - reviews*cost` is
maximal among the feasible swept thresholds, together with that value. -/
theorem c9_optimize_threshold (yt : List ℤ) (ys : List ℚ) (sp cp : ℚ)
    (mf : Option ℚ) (mw : Option ℤ) (ts : List ℚ) :
    (optimize_threshold yt ys sp cp mf mw ts = none ↔
      ∀ t ∈ ts, isFeasible yt ys mf mw sp cp t = false)
    ∧ (∀ b v, optimize_threshold yt ys sp cp mf mw ts = some (b, v) →
        b ∈ ts ∧ isFeasible yt ys mf mw sp cp b = true
        ∧ v = (value_at_threshold yt ys b sp cp).value
        ∧ ∀ t ∈ ts, isFeasible yt ys mf mw sp cp t = true →
            (value_at_threshold yt ys t sp cp).value ≤ v) := by
  constructor
  · rw [optimize_threshold, optLoop_none]
    simp
  · intro b v h
    obtain ⟨hfb, hvb, hmem, hmax, _⟩ :=
      optLoop_some yt ys mf mw sp cp ts none b v (by simp) h
    rcases hmem with hm | hm
    · exact ⟨hm, hfb, hvb, hmax⟩
    · simp at hm

/-- C9 witness: on labels [1,0], scores [80,10], sweep [50] with no
constraints, the optimizer returns threshold 50 with value 950, and the
theorem's optimality clause applies to it. -/
theorem c9_witness :
    optimize_threshold [1, 0] [(80 : ℚ), 10] 1000 50 none none [50] = some (50, 950)
    ∧ ((50 : ℚ) ∈ [(50 : ℚ)]
        ∧ isFeasible [1, 0] [(80 : ℚ), 10] none none 1000 50 50 = true
        ∧ (950 : ℚ) = (value_at_threshold [1, 0] [(80 : ℚ), 10] 50 1000 50).value
        ∧ ∀ t ∈ [(50 : ℚ)], isFeasible [1, 0] [(80 : ℚ), 10] none none 1000 50 t = true →
            (value_at_threshold [1, 0] [(80 : ℚ), 10] t 1000 50).value ≤ 950) := by
  have heq : optimize_threshold [1, 0] [(80 : ℚ), 10] 1000 50 none none [50]
      = some (50, 950) := by
    norm_num [optimize_threshold, optLoop, optStep, isFeasible, value_at_threshold,
      scores_to_binary, tpCount, fpCount]
  exact ⟨heq, (c9_optimize_threshold [1, 0] [(80 : ℚ), 10] 1000 50 none none [50]).2 50 950 heq⟩

theorem chainLe_tail {a b : ℚ × ℚ} {l : List (ℚ × ℚ)} (h : chainLe (a :: b :: l) = true) :
    chainLe (b :: l) = true ∧ a.1 ≤ b.1 ∧ a.2 ≤ b.2 := by
  simp only [chainLe, Bool.and_eq_true, decide_eq_true_eq] at h
  exact ⟨h.2, h.1.1, h.1.2⟩

theorem interp_ge {s x0 x1 p0 p1 : ℚ} (hs0 : x0 ≤ s) (hs1 : s ≤ x1) (hp : p0 ≤ p1) :
    p0 ≤ p0 + interpT s x0 x1 * (p1 - p0) := by
  unfold interpT
  split_ifs with hne
  · have hlt : x0 < x1 := lt_of_le_of_ne (le_trans hs0 hs1) (Ne.symm hne)
    have ht0 : 0 ≤ (s - x0) / (x1 - x0) := div_nonneg (by linarith) (by linarith)
    nlinarith
  · linarith

theorem interp_le {s x0 x1 p0 p1 : ℚ} (hs0 : x0 ≤ s) (hs1 : s ≤ x1) (hp : p0 ≤ p1) :
    p0 + interpT s x0 x1 * (p1 - p0) ≤ p1 := by
  unfold interpT
  split_ifs with hne
  · have hlt : x0 < x1 := lt_of_le_of_ne (le_trans hs0 hs1) (Ne.symm hne)
    have ht1 : (s - x0) / (x1 - x0) ≤ 1 := (div_le_one (by linarith)).mpr (by linarith)
    nlinarith
  · linarith

theorem interp_mono {s1 s2 x0 x1 p0 p1 : ℚ} (hx : x0 ≤ x1) (hp : p0 ≤ p1) (h0 : x0 ≤ s1)
    (h12 : s1 ≤ s2) (h1 : s2 ≤ x1) :
    p0 + interpT s1 x0 x1 * (p1 - p0) ≤ p0 + interpT s2 x0 x1 * (p1 - p0) := by
  unfold interpT
  split_ifs with hne
  · have hlt : x0 < x1 := lt_of_le_of_ne hx (Ne.symm hne)
    have ht : (s1 - x0) / (x1 - x0) ≤ (s2 - x0) / (x1 - x0) :=
      div_le_div_of_nonneg_right (by linarith) (by linarith)
    nlinarith
  · linarith

theorem interp_mem {s x0 x1 p0 p1 : ℚ} (hs0 : x0 ≤ s) (hs1 : s ≤ x1) (h00 : 0 ≤ p0)
    (h01 : p0 ≤ 1) (h10 : 0 ≤ p1) (h11 : p1 ≤ 1) :
    0 ≤ p0 + interpT s x0 x1 * (p1 - p0) ∧ p0 + interpT s x0 x1 * (p1 - p0) ≤ 1 := by
  unfold interpT
  split_ifs with hne
  · have hlt : x0 < x1 := lt_of_le_of_ne (le_trans hs0 hs1) (Ne.symm hne)
    have ht0 : 0 ≤ (s - x0) / (x1 - x0) := div_nonneg (by linarith) (by linarith)
    have ht1 : (s - x0) / (x1 - x0) ≤ 1 := (div_le_one (by linarith)).mpr (by linarith)
    constructor <;> nlinarith
  · constructor <;> linarith

theorem isoLookup_single (x p s : ℚ) : isoLookup s [(x, p)] = p := rfl

theorem isoLookup_match {x0 p0 x1 p1 : ℚ} {rest : List (ℚ × ℚ)} {s : ℚ}
    (h : x0 ≤ s ∧ s ≤ x1) :
    isoLookup s ((x0, p0) :: (x1, p1) :: rest) = p0 + interpT s x0 x1 * (p1 - p0) := by
  unfold isoLookup
  simp only [isoScan]
  rw [if_pos h]

theorem isoLookup_step {x0 p0 x1 p1 : ℚ} {rest : List (ℚ × ℚ)} {s : ℚ}
    (h : ¬(x0 ≤ s ∧ s ≤ x1)) :
    isoLookup s ((x0, p0) :: (x1, p1) :: rest) = isoLookup s ((x1, p1) :: rest) := by
  unfold isoLookup
  rw [show isoScan s ((x0, p0) :: (x1, p1) :: rest) = isoScan s ((x1, p1) :: rest) from by
    simp only [isoScan]; rw [if_neg h]]
  cases isoScan s ((x1, p1) :: rest) <;> simp [List.getLastD_cons]

theorem isoLookup_ge : ∀ (tail : List (ℚ × ℚ)) (x p s : ℚ),
    chainLe ((x, p) :: tail) = true → x ≤ s → p ≤ isoLookup s ((x, p) :: tail) := by
  intro tail
  induction tail with
  | nil =>
    intro x p s _ _
    rw [isoLookup_single]
  | cons hd tl ih =>
    obtain ⟨x1, p1⟩ := hd
    intro x p s hch hx
    obtain ⟨hch', hx01, hp01⟩ := chainLe_tail hch
    by_cases hm : x ≤ s ∧ s ≤ x1
    · rw [isoLookup_match hm]
      exact interp_ge hm.1 hm.2 hp01
    · rw [isoLookup_step hm]
      have hx1 : x1 ≤ s := by
        rcases not_and_or.mp hm with h | h
        · exact absurd hx h
        · linarith [lt_of_not_le h]
      exact le_trans hp01 (ih x1 p1 s hch' hx1)

theorem isoLookup_mono : ∀ (tail : List (ℚ × ℚ)) (x p s1 s2 : ℚ),
    chainLe ((x, p) :: tail) = true → x ≤ s1 → s1 ≤ s2 →
    isoLookup s1 ((x, p) :: tail) ≤ isoLookup s2 ((x, p) :: tail) := by
  intro tail
  induction tail with
  | nil =>
    intro x p s1 s2 _ _ _
    rw [isoLookup_single, isoLookup_single]
  | cons hd tl ih =>
    obtain ⟨x1, p1⟩ := hd
    intro x p s1 s2 hch hx h12
    obtain ⟨hch', hx01, hp01⟩ := chainLe_tail hch
    by_cases h1 : s1 ≤ x1
    · rw [isoLookup_match ⟨hx, h1⟩]
      by_cases h2 : s2 ≤ x1
      · rw [isoLookup_match ⟨le_trans hx h12, h2⟩]
        exact interp_mono hx01 hp01 hx h12 h2
      · rw [isoLookup_step (fun hc => h2 hc.2)]
        calc p + interpT s1 x x1 * (p1 - p)
            ≤ p1 := interp_le hx h1 hp01
          _ ≤ isoLookup s2 ((x1, p1) :: tl) :=
            isoLookup_ge tl x1 p1 s2 hch' (by linarith [lt_of_not_le h2])
    · have hs1 : x1 < s1 := lt_of_not_le h1
      rw [isoLookup_step (fun hc => h1 hc.2),
        isoLookup_step (fun hc => absurd hc.2 (by linarith))]
      exact ih x1 p1 s1 s2 hch' (le_of_lt hs1) h12

theorem isoLookup_mem : ∀ (bs : List (ℚ × ℚ)) (s : ℚ), bs ≠ [] →
    (∀ q ∈ bs, 0 ≤ q.2 ∧ q.2 ≤ 1) → 0 ≤ isoLookup s bs ∧ isoLookup s bs ≤ 1 := by
  intro bs
  induction bs with
  | nil => intro s h _; exact absurd rfl h
  | cons hd tl ih =>
    obtain ⟨x, p⟩ := hd
    intro s _ hq
    cases tl with
    | nil =>
      rw [isoLookup_single]
      exact hq (x, p) (by simp)
    | cons hd2 tl2 =>
      obtain ⟨x1, p1⟩ := hd2
      by_cases hm : x ≤ s ∧ s ≤ x1
      · rw [isoLookup_match hm]
        have hp0 := hq (x, p) (by simp)
        have hp1 := hq (x1, p1) (by simp [List.mem_cons])
        exact interp_mem hm.1 hm.2 hp0.1 hp0.2 hp1.1 hp1.2
      · rw [isoLookup_step hm]
        exact ih s (by simp) (fun q hmem => hq q (List.mem_cons_of_mem _ hmem))

theorem clamp01 (score : ℚ) :
    0 ≤ max 0 (min 100 score) / 100 ∧ max 0 (min 100 score) / 100 ≤ 1 := by
  constructor
  · exact div_nonneg (le_max_left _ _) (by norm_num)
  · rw [div_le_one (by norm_num)]
    exact max_le (by norm_num) (min_le_left _ _)

theorem clamp_mono {s1 s2 : ℚ} (h : s1 ≤ s2) :
    max 0 (min 100 s1) / 100 ≤ max 0 (min 100 s2) / 100 :=
  div_le_div_of_nonneg_right (max_le_max le_rfl (min_le_min le_rfl h)) (by norm_num)

/-- C7 (amended): `calibrate_score` stays in [0,1] — for a Platt
calibrator because the (nonnegative) exponential keeps the logistic
denominator at least 1, for an isotonic calibrator whenever its
breakpoint probabilities lie in [0,1]; the isotonic output is monotone
non-decreasing in the score for monotone breakpoints whose first
breakpoint is at or below 0 (as holds for every fitted grid); monotone
breakpoints alone do not suffice (see the counterexample). -/
theorem c7_calibrate_bounds_monotone :
    (∀ (e : ℚ → ℚ) (A B s : ℚ), (∀ x, 0 ≤ e x) →
      0 ≤ calibrate_score e (.platt A B) s ∧ calibrate_score e (.platt A B) s ≤ 1)
    ∧ (∀ (e : ℚ → ℚ) (bs : List (ℚ × ℚ)) (s : ℚ), (∀ q ∈ bs, 0 ≤ q.2 ∧ q.2 ≤ 1) →
      0 ≤ calibrate_score e (.isotonic bs) s ∧ calibrate_score e (.isotonic bs) s ≤ 1)
    ∧ (∀ (e : ℚ → ℚ) (x p : ℚ) (tail : List (ℚ × ℚ)) (s1 s2 : ℚ),
        chainLe ((x, p) :: tail) = true → x ≤ 0 → s1 ≤ s2 →
        calibrate_score e (.isotonic ((x, p) :: tail)) s1
          ≤ calibrate_score e (.isotonic ((x, p) :: tail)) s2) := by
  refine ⟨?_, ?_, ?_⟩
  · intro e A B s he
    have hden : (0 : ℚ) < 1 + e (-(A * (max 0 (min 100 s) / 100) + B)) := by
      linarith [he (-(A * (max 0 (min 100 s) / 100) + B))]
    constructor
    · exact le_of_lt (div_pos one_pos hden)
    · rw [show calibrate_score e (.platt A B) s
          = 1 / (1 + e (-(A * (max 0 (min 100 s) / 100) + B))) from rfl]
      rw [div_le_one hden]
      linarith [he (-(A * (max 0 (min 100 s) / 100) + B))]
  · intro e bs s hq
    by_cases hnil : bs = []
    · subst hnil
      rw [show calibrate_score e (.isotonic []) s = max 0 (min 100 s) / 100 from rfl]
      exact clamp01 s
    · rw [show calibrate_score e (.isotonic bs) s
          = if bs = [] then max 0 (min 100 s) / 100
            else isoLookup (max 0 (min 100 s) / 100) bs from rfl]
      rw [if_neg hnil]
      exact isoLookup_mem bs _ hnil hq
  · intro e x p tail s1 s2 hch hx h12
    rw [show calibrate_score e (.isotonic ((x, p) :: tail)) s1
        = isoLookup (max 0 (min 100 s1) / 100) ((x, p) :: tail) from rfl]
    rw [show calibrate_score e (.isotonic ((x, p) :: tail)) s2
        = isoLookup (max 0 (min 100 s2) / 100) ((x, p) :: tail) from rfl]
    exact isoLookup_mono tail x p _ _ hch
      (le_trans hx (clamp01 s1).1) (clamp_mono h12)

/-- C7 witness: the bounds with the constant exponential, and the
monotonicity on the fitted-style breakpoints [(0, 0.1), (1, 0.9)] at
scores 20 and 60. -/
theorem c7_witness :
    ((∀ x : ℚ, (0 : ℚ) ≤ (fun _ : ℚ => (1 : ℚ)) x)
      ∧ 0 ≤ calibrate_score (fun _ => 1) (.platt 1 0) 50
      ∧ calibrate_score (fun _ => 1) (.platt 1 0) 50 ≤ 1)
    ∧ (chainLe [((0 : ℚ), 1/10), (1, 9/10)] = true ∧ (0 : ℚ) ≤ 0 ∧ (20 : ℚ) ≤ 60
      ∧ calibrate_score (fun _ => 1) (.isotonic [((0 : ℚ), 1/10), (1, 9/10)]) 20
          ≤ calibrate_score (fun _ => 1) (.isotonic [((0 : ℚ), 1/10), (1, 9/10)]) 60) := by
  have hch : chainLe [((0 : ℚ), 1/10), (1, 9/10)] = true := by
    simp [chainLe]
    norm_num
  constructor
  · refine ⟨fun x => by norm_num, ?_⟩
    exact (c7_calibrate_bounds_monotone.1 (fun _ => 1) 1 0 50 (fun x => by norm_num))
  · refine ⟨hch, le_refl 0, by norm_num, ?_⟩
    exact c7_calibrate_bounds_monotone.2.2 (fun _ => 1) 0 (1/10) [(1, 9/10)] 20 60 hch
      (le_refl 0) (by norm_num)

/-- C7 counterexample: the isotonic breakpoints [(0.5, 0.2), (1, 0.8)]
are monotone non-decreasing with probabilities in [0,1], yet the applied
output falls from 0.8 at score 30 to 0.2 at score 50, because a query
below the first breakpoint hits the `boundaries[-1][1]` fallback (the
largest probability) instead of clamping to the first one. -/
theorem c7_counterexample :
    chainLe [((1 : ℚ)/2, 1/5), (1, 4/5)] = true
    ∧ (∀ q ∈ [((1 : ℚ)/2, 1/5), (1, 4/5)], 0 ≤ q.2 ∧ q.2 ≤ 1)
    ∧ calibrate_score (fun _ => 1) (.isotonic [((1 : ℚ)/2, 1/5), (1, 4/5)]) 30 = 4/5
    ∧ calibrate_score (fun _ => 1) (.isotonic [((1 : ℚ)/2, 1/5), (1, 4/5)]) 50 = 1/5
    ∧ (30 : ℚ) ≤ 50
    ∧ ¬(calibrate_score (fun _ => 1) (.isotonic [((1 : ℚ)/2, 1/5), (1, 4/5)]) 30
        ≤ calibrate_score (fun _ => 1) (.isotonic [((1 : ℚ)/2, 1/5), (1, 4/5)]) 50) := by
  have hcl30 : max 0 (min 100 (30 : ℚ)) / 100 = 3/10 := by norm_num
  have hcl50 : max 0 (min 100 (50 : ℚ)) / 100 = 1/2 := by norm_num
  have h30 : calibrate_score (fun _ => 1) (.isotonic [((1 : ℚ)/2, 1/5), (1, 4/5)]) 30 = 4/5 := by
    rw [show calibrate_score (fun _ : ℚ => (1 : ℚ)) (.isotonic [((1 : ℚ)/2, 1/5), (1, 4/5)]) 30
        = isoLookup (max 0 (min 100 (30 : ℚ)) / 100) [((1 : ℚ)/2, 1/5), (1, 4/5)] from rfl]
    rw [hcl30, isoLookup_step (by norm_num)]
    rw [isoLookup_single]
  have h50 : calibrate_score (fun _ => 1) (.isotonic [((1 : ℚ)/2, 1/5), (1, 4/5)]) 50 = 1/5 := by
    rw [show calibrate_score (fun _ : ℚ => (1 : ℚ)) (.isotonic [((1 : ℚ)/2, 1/5), (1, 4/5)]) 50
        = isoLookup (max 0 (min 100 (50 : ℚ)) / 100) [((1 : ℚ)/2, 1/5), (1, 4/5)] from rfl]
    rw [hcl50, isoLookup_match (by norm_num)]
    norm_num [interpT]
  refine ⟨by simp [chainLe]; norm_num, by intro q hq; rcases List.mem_pair.mp hq with rfl | rfl <;> norm_num,
    h30, h50, by norm_num, ?_⟩
  rw [h30, h50]
  norm_num

/-- C8 (code bug): the repository's `fit_isotonic` has no branch
inspecting the labels at all — whenever scikit-learn is available it
returns a calibrator, on a single-class label set included, and on no
input does it produce the spec's distinct "insufficient data" condition.
(`fit_platt` likewise has no such check; there a single-class set makes
the external `LogisticRegression.fit` raise an unhandled ValueError.) -/
theorem c8_no_insufficient_data_check :
    (∀ (b : Bool) (fit : List ℤ → List ℚ → ℚ → ℚ) (yt : List ℤ) (ys : List ℚ),
      fit_isotonic b fit yt ys ≠ FitResult.insufficientData)
    ∧ (∀ fit : List ℤ → List ℚ → ℚ → ℚ,
      (fit_isotonic true fit [0, 0, 0, 0] [10, 20, 30, 40]).isCalibrator = true) := by
  constructor
  · intro b fit yt ys
    unfold fit_isotonic
    split_ifs <;> simp [FitResult.isCalibrator]
  · intro fit
    rfl
